import Mathlib

/-!
Shallow embedding of the algorithmic core of the studybuddy backend:
the spaced-repetition scheduler (`app/services/srs_service.py`) and the
roadmap generator (`app/services/roadmap_generator.py`).

Python floats are modelled as exact rationals (ℚ), Python ints and dates
as ℤ (a date is its day number), `math.ceil` as `Int.ceil`, and the
SQLAlchemy store as an explicit list of records.
-/

namespace StudyBuddy

/-! ### Spaced repetition: `SRSService.calculate_next_review` -/

/-- Embedding of `SRSService.calculate_next_review`.  The ease factor is
adjusted by performance band; in the poor band (`performance < 0.6`) the
current interval is additionally reset to 1 before the next interval
`ceil(interval * ease)` is computed and capped at 90 days. -/
def calculate_next_review (current_interval : ℤ) (ease_factor performance : ℚ) :
    ℤ × ℚ :=
  let ease :=
    if 9/10 ≤ performance then min (ease_factor + 15/100) (5/2)
    else if 7/10 ≤ performance then min (ease_factor + 5/100) (5/2)
    else if 6/10 ≤ performance then max (ease_factor - 5/100) (13/10)
    else max (ease_factor - 2/10) (13/10)
  let interval := if 6/10 ≤ performance then current_interval else 1
  let next_interval := ⌈(interval : ℚ) * ease⌉
  (min next_interval 90, ease)

/-! ### A stable descending sort

Model of Python's `sorted(..., key=..., reverse=True)` / `list.sort(...)`,
which is a stable sort.  `insertDescBy` inserts an element before the first
element of a descending-sorted list whose key is `≤` its own, so elements
with strictly larger keys stay ahead and elements already in the list with
an equal key (which stem from later input positions) end up after it. -/

def insertDescBy {α : Type} (key : α → ℤ) (x : α) : List α → List α
  | [] => [x]
  | y :: ys => if key x < key y then y :: insertDescBy key x ys else x :: y :: ys

def sortDescBy {α : Type} (key : α → ℤ) : List α → List α
  | [] => []
  | x :: xs => insertDescBy key x (sortDescBy key xs)

/-! ### Data model

The columns of `SpacedRepetitionSchedule` and `Topic` (from
`app/models/models.py`) that the scheduler reads or writes.  Dates are day
numbers (ℤ); `last_reviewed` is nullable. -/

structure Schedule where
  user_id : ℤ
  topic_id : ℤ
  next_review_date : ℤ
  interval_days : ℤ
  ease_factor : ℚ
  review_count : ℤ
  last_reviewed : Option ℤ
deriving Repr, DecidableEq

structure Topic where
  id : ℤ
  plan_id : ℤ
  name : String
deriving Repr, DecidableEq

/-- The `db.query(...).filter(user_id, topic_id).first()` lookup in
`update_schedule`. -/
def findSchedule (db : List Schedule) (user_id topic_id : ℤ) : Option Schedule :=
  db.find? (fun s => decide (s.user_id = user_id ∧ s.topic_id = topic_id))

/-- Replace the first record matching `p` (the ORM mutates the single row
returned by `.first()`). -/
def updateFirst (p : Schedule → Bool) (new : Schedule) : List Schedule → List Schedule
  | [] => []
  | s :: rest => if p s then new :: rest else s :: updateFirst p new rest

/-- Embedding of `SRSService.update_schedule`: fetch or lazily create the
(user, topic) schedule (initial interval 1, ease 2.5, count 0), apply
`calculate_next_review`, and persist the updated record.  Returns the new
store together with the updated record. -/
def update_schedule (db : List Schedule) (user_id topic_id : ℤ)
    (performance_score : ℚ) (today : ℤ) : List Schedule × Schedule :=
  let existing := findSchedule db user_id topic_id
  let schedule : Schedule :=
    match existing with
    | some s => s
    | none =>
      { user_id := user_id, topic_id := topic_id, interval_days := 1,
        ease_factor := 5/2, review_count := 0, next_review_date := 0,
        last_reviewed := none }
  let r := calculate_next_review schedule.interval_days schedule.ease_factor
    performance_score
  let updated : Schedule :=
    { schedule with
      interval_days := r.1,
      ease_factor := r.2,
      next_review_date := today + r.1,
      review_count := schedule.review_count + 1,
      last_reviewed := some today }
  match existing with
  | some _ =>
    (updateFirst (fun s => decide (s.user_id = user_id ∧ s.topic_id = topic_id))
      updated db, updated)
  | none => (db ++ [updated], updated)

/-- The optional `plan_id` filter.  Python tests `if plan_id:`, so both
`None` and `0` (falsy) skip the filter. -/
def planFilter (plan_id : Option ℤ) (t : Topic) : Bool :=
  match plan_id with
  | none => true
  | some p => decide (p = 0 ∨ t.plan_id = p)

/-- One row of the `get_due_reviews` response. -/
structure DueEntry where
  topic_id : ℤ
  topic_name : String
  next_review_date : ℤ
  days_overdue : ℤ
  review_count : ℤ
  interval_days : ℤ
deriving Repr, DecidableEq

/-- Embedding of `SRSService.get_due_reviews`: schedules of the user with
`next_review_date ≤ today` (inner-joined with their topic, optionally
filtered by plan), shaped into response rows and sorted by `days_overdue`
descending. -/
def get_due_reviews (db : List Schedule) (topics : List Topic) (user_id : ℤ)
    (plan_id : Option ℤ) (today : ℤ) : List DueEntry :=
  let rows := db.filterMap (fun s =>
    if s.user_id = user_id ∧ s.next_review_date ≤ today then
      (topics.find? (fun t => decide (t.id = s.topic_id))).bind (fun t =>
        if planFilter plan_id t then some (s, t) else none)
    else none)
  let result := rows.map (fun st =>
    { topic_id := st.1.topic_id, topic_name := st.2.name,
      next_review_date := st.1.next_review_date,
      days_overdue := today - st.1.next_review_date,
      review_count := st.1.review_count,
      interval_days := st.1.interval_days : DueEntry })
  sortDescBy (fun e => e.days_overdue) result

/-- One entry of a `get_upcoming_reviews` bucket. -/
structure UpcomingEntry where
  topic_id : ℤ
  topic_name : String
  review_count : ℤ
deriving Repr, DecidableEq

def mkUpcoming (st : Schedule × Topic) : UpcomingEntry :=
  { topic_id := st.1.topic_id, topic_name := st.2.name,
    review_count := st.1.review_count }

/-- Append a joined row to the bucket keyed by its `next_review_date`
(`if date_key in reviews_by_date: ... append`); rows outside the bucket
range leave the accumulator unchanged. -/
def placeRow (acc : List (ℤ × List UpcomingEntry)) (st : Schedule × Topic) :
    List (ℤ × List UpcomingEntry) :=
  acc.map (fun b =>
    if b.1 = st.1.next_review_date then (b.1, b.2 ++ [mkUpcoming st]) else b)

/-- Embedding of `SRSService.get_upcoming_reviews`: one bucket per day from
`today` through `today + days_ahead` (SQL `between` is inclusive), each
populated with the user's schedules due on that date. -/
def get_upcoming_reviews (db : List Schedule) (topics : List Topic) (user_id : ℤ)
    (days_ahead : ℕ) (plan_id : Option ℤ) (today : ℤ) :
    List (ℤ × List UpcomingEntry) :=
  let end_date := today + days_ahead
  let rows := db.filterMap (fun s =>
    if s.user_id = user_id ∧ today ≤ s.next_review_date ∧ s.next_review_date ≤ end_date then
      (topics.find? (fun t => decide (t.id = s.topic_id))).bind (fun t =>
        if planFilter plan_id t then some (s, t) else none)
    else none)
  let buckets := (List.range (days_ahead + 1)).map
    (fun i : ℕ => (today + (i : ℤ), ([] : List UpcomingEntry)))
  rows.foldl placeRow buckets

/-! ### Roadmap generator (`app/services/roadmap_generator.py`) -/

/-- Input topic record: `topic_data.get('frequency', 'medium')`,
`topic_data.get('questions', [])`, `topic_data.get('recommended_hours', 5)`
are dict lookups with defaults, hence the `Option` fields. -/
structure TopicData where
  frequency : Option String
  questions : List String
  recommended_hours : Option ℚ
deriving Repr

/-- An element of the prioritized topic list built by `_prioritize_topics`. -/
structure PrioritizedTopic where
  name : String
  questions : List String
  frequency : String
  recommended_hours : ℚ
  impact_score : ℤ
  question_count : ℕ
deriving Repr, DecidableEq

/-- `self.frequency_weights` with the `.get(frequency, 5)` default for
unknown tiers. -/
def frequency_weights (frequency : String) : ℤ :=
  if frequency = "very_high" then 10
  else if frequency = "high" then 7
  else if frequency = "medium" then 5
  else if frequency = "low" then 3
  else 5

/-- The loop body of `_prioritize_topics`: impact score =
frequency weight × difficulty (fixed 2, medium) × weakness (fixed 1). -/
def mkPrioritizedTopic (topic_name : String) (topic_data : TopicData) :
    PrioritizedTopic :=
  let frequency := topic_data.frequency.getD "medium"
  let freq_weight := frequency_weights frequency
  let difficulty_score : ℤ := 2
  let weakness_score : ℤ := 1
  { name := topic_name, questions := topic_data.questions, frequency := frequency,
    recommended_hours := topic_data.recommended_hours.getD 5,
    impact_score := freq_weight * difficulty_score * weakness_score,
    question_count := topic_data.questions.length }

/-- Embedding of `RoadmapGenerator._prioritize_topics`: build the scored
records in dict order, then `prioritized.sort(key=..., reverse=True)`
(stable, descending). -/
def prioritize_topics (topics : List (String × TopicData)) : List PrioritizedTopic :=
  sortDescBy (fun t => t.impact_score)
    (topics.map (fun nt => mkPrioritizedTopic nt.1 nt.2))

/-- A round of the interview `round_structure`; only `r['type']` is read. -/
structure RoundSpec where
  type : String
deriving Repr, DecidableEq

structure SideTask where
  type : String
  task : String
deriving Repr, DecidableEq

/-- One day of the generated plan (`daily_plan.append({...})`). -/
structure DayEntry where
  day : ℕ
  date : ℤ
  topic : String
  frequency : String
  dsa_questions : List String
  question_count : ℕ
  side_task : Option SideTask
  estimated_hours : ℚ
deriving Repr, DecidableEq

/-- The two exception kinds the roadmap pipeline can raise:
`ValueError` from the date validation in `generate_roadmap`, and
`IndexError` from the unguarded `topics[current_topic_idx]` access in
`_distribute_topics` (reached when the prioritized topic list is empty). -/
inductive PyError where
  | valueError (msg : String)
  | indexError
deriving Repr, DecidableEq

/-- Default only for the bounds-guarded `topics[current_topic_idx]` access
inside the empty-slice branch of `_distribute_topics`, whose guard
(`current_topic_idx < len(topics)`, mirrored in the model) makes it
unreachable.  The unguarded access at the top of the loop body is modelled
with `List.get?` and a genuine `IndexError` instead. -/
def dummyTopic : PrioritizedTopic :=
  { name := "", questions := [], frequency := "", recommended_hours := 0,
    impact_score := 0, question_count := 0 }

/-- Common tail of one iteration of the `_distribute_topics` day loop:
append today's entry, advance the per-topic offset, and move to the next
topic once the current one is exhausted. -/
def finishDay (day : ℕ) (today : ℤ) (idx done : ℕ) (current : PrioritizedTopic)
    (qs : List String) : DayEntry × ℕ × ℕ :=
  let entry : DayEntry :=
    { day := day, date := today + ((day : ℤ) - 1), topic := current.name,
      frequency := current.frequency, dsa_questions := qs,
      question_count := qs.length, side_task := none,
      estimated_hours := (qs.length : ℚ) * (1/2) }
  let done2 := done + qs.length
  if current.questions.length ≤ done2 then (entry, idx + 1, 0) else (entry, idx, done2)

/-- One iteration of the `_distribute_topics` loop: cycle the topic cursor
back to 0 when past the end, read `topics[current_topic_idx]` (raising
`IndexError` out of range, i.e. exactly when the list is empty), slice up
to `daily_dsa_count` questions at the current offset, and on an empty
slice advance to the next topic (keeping the empty slice when already
past the last topic). -/
def distributeStep (topics : List PrioritizedTopic) (daily_dsa_count : ℕ)
    (today : ℤ) (day idx0 done : ℕ) : Except PyError (DayEntry × ℕ × ℕ) :=
  let idx := if topics.length ≤ idx0 then 0 else idx0
  match topics.get? idx with
  | none => Except.error PyError.indexError
  | some current =>
    let qs := (current.questions.drop done).take daily_dsa_count
    if qs.isEmpty then
      if idx + 1 < topics.length then
        let c := topics.getD (idx + 1) dummyTopic
        Except.ok (finishDay day today (idx + 1) 0 c (c.questions.take daily_dsa_count))
      else Except.ok (finishDay day today (idx + 1) 0 current qs)
    else Except.ok (finishDay day today idx done current qs)

/-- The `for day in range(1, days_available + 1)` loop of
`_distribute_topics`, with the remaining day count as fuel; an
`IndexError` in any iteration propagates. -/
def distributeGo (topics : List PrioritizedTopic) (daily_dsa_count : ℕ)
    (today : ℤ) : ℕ → ℕ → ℕ → ℕ → Except PyError (List DayEntry)
  | 0, _, _, _ => Except.ok []
  | rem + 1, day, idx, done =>
    match distributeStep topics daily_dsa_count today day idx done with
    | Except.error e => Except.error e
    | Except.ok s =>
      match distributeGo topics daily_dsa_count today rem (day + 1) s.2.1 s.2.2 with
      | Except.error e => Except.error e
      | Except.ok rest => Except.ok (s.1 :: rest)

/-- Embedding of `RoadmapGenerator._distribute_topics` (the unused
`round_structure` parameter is kept for signature fidelity). -/
def distribute_topics (topics : List PrioritizedTopic) (days_available : ℕ)
    (daily_dsa_count : ℕ) (round_structure : List RoundSpec) (today : ℤ) :
    Except PyError (List DayEntry) :=
  distributeGo topics daily_dsa_count today days_available 1 0 0

/-- Embedding of `RoadmapGenerator._add_side_tasks`: a first-match-wins
rule chain per day, with monotone cursors into the system-design and
behavioral topic lists carried through the fold. -/
def add_side_tasks (daily_plan : List DayEntry) (round_structure : List RoundSpec)
    (system_design behavioral_focus : List String) : List DayEntry :=
  let has_system_design := round_structure.any (fun r => r.type == "system_design")
  let has_aptitude := round_structure.any (fun r => r.type == "aptitude")
  let has_hr := round_structure.any (fun r => r.type == "hr")
  let n := daily_plan.length
  (daily_plan.foldl (fun (acc : List DayEntry × ℕ × ℕ) dp =>
    let day := dp.day
    if day = 1 ∧ has_hr then
      (acc.1 ++ [{ dp with side_task := some ⟨"behavioral",
        "Write STAR format examples for past experiences"⟩ }],
       acc.2.1, acc.2.2)
    else if (day = 2 ∨ day = 3) ∧ has_aptitude then
      (acc.1 ++ [{ dp with side_task := some ⟨"aptitude",
        if day = 2 then "Practice aptitude: Ratios & Percentages"
        else "Practice aptitude: Time & Work problems"⟩ }],
       acc.2.1, acc.2.2)
    else if day % 3 = 0 ∧ has_system_design ∧ acc.2.1 < system_design.length then
      (acc.1 ++ [{ dp with side_task := some ⟨"system_design",
        "Study: " ++ system_design.getD acc.2.1 ""⟩ }],
       acc.2.1 + 1, acc.2.2)
    else if day % 4 = 0 ∧ acc.2.2 < behavioral_focus.length then
      (acc.1 ++ [{ dp with side_task := some ⟨"behavioral",
        "Prepare examples for: " ++ behavioral_focus.getD acc.2.2 ""⟩ }],
       acc.2.1, acc.2.2 + 1)
    else if (n : ℤ) - 3 < (day : ℤ) then
      (acc.1 ++ [{ dp with side_task := some ⟨"mock",
        "Mock interview - Round " ++ toString ((n : ℤ) - (day : ℤ) + 1)⟩ }],
       acc.2.1, acc.2.2)
    else (acc.1 ++ [dp], acc.2.1, acc.2.2))
    (([], 0, 0) : List DayEntry × ℕ × ℕ)).1

/-- Python's `round(x, 1)`.  The source rounds a binary float (banker's
rounding on the nearest double); on exact rationals this is modelled as
ordinary rounding of the tenths digit, which agrees except at exact
half-tenths.  No claim depends on this field. -/
def pythonRound1 (q : ℚ) : ℚ := ((round (q * 10) : ℤ) : ℚ) / 10

structure RoadmapStats where
  total_days : ℕ
  total_questions : ℕ
  unique_topics : ℕ
  total_hours : ℚ
  avg_questions_per_day : ℚ
  side_task_distribution : List (String × ℕ)
deriving Repr

/-- `side_task_counts[task_type] = side_task_counts.get(task_type, 0) + 1`
on an insertion-ordered dict. -/
def bumpCount (counts : List (String × ℕ)) (k : String) : List (String × ℕ) :=
  if counts.any (fun c => c.1 == k) then
    counts.map (fun c => if c.1 == k then (c.1, c.2 + 1) else c)
  else counts ++ [(k, 1)]

/-- Embedding of `RoadmapGenerator._calculate_stats`. -/
def calculate_stats (roadmap : List DayEntry) (hours_per_day : ℚ) : RoadmapStats :=
  let total_days := roadmap.length
  let total_questions := (roadmap.map (fun d => d.question_count)).sum
  let unique_topics := (roadmap.map (fun d => d.topic)).dedup.length
  { total_days := total_days, total_questions := total_questions,
    unique_topics := unique_topics,
    total_hours := (total_days : ℚ) * hours_per_day,
    avg_questions_per_day := pythonRound1 ((total_questions : ℚ) / (total_days : ℚ)),
    side_task_distribution := roadmap.foldl (fun counts d =>
      match d.side_task with
      | some st => bumpCount counts st.type
      | none => counts) [] }

/-- `company_questions['topics']` plus the `.get(..., [])` side lists. -/
structure CompanyQuestions where
  topics : List (String × TopicData)
  system_design : Option (List String)
  behavioral_focus : Option (List String)

structure GenerateResult where
  roadmap : List DayEntry
  statistics : RoadmapStats
  daily_dsa_count : ℤ

/-- Embedding of `RoadmapGenerator.generate_roadmap`: validate that the
interview date is strictly in the future (`raise ValueError` otherwise —
the error the spec names `InvalidScheduleError`), compute the daily
question budget `min(floor(hours_per_day * 1.2), 8)`, then prioritize,
distribute (an `IndexError` from the distribution propagates unchanged),
attach side tasks and compute statistics. -/
def generate_roadmap (company_questions : CompanyQuestions) (interview_date : ℤ)
    (hours_per_day : ℚ) (round_structure : List RoundSpec) (today : ℤ) :
    Except PyError GenerateResult :=
  let days_available := interview_date - today
  if days_available ≤ 0 then
    Except.error (PyError.valueError "Interview date must be in the future")
  else
    let daily_dsa_count : ℤ := min ⌊hours_per_day * (12/10)⌋ 8
    let prioritized_topics := prioritize_topics company_questions.topics
    match distribute_topics prioritized_topics days_available.toNat
        daily_dsa_count.toNat round_structure today with
    | Except.error e => Except.error e
    | Except.ok daily_plan =>
      let roadmap := add_side_tasks daily_plan round_structure
        (company_questions.system_design.getD [])
        (company_questions.behavioral_focus.getD [])
      Except.ok { roadmap := roadmap,
                  statistics := calculate_stats roadmap hours_per_day,
                  daily_dsa_count := daily_dsa_count }

/-- Any branch of the update rule yields a pair of the shape
`(min ⌈x·E⌉ 90, E)`; with `x ≥ 1` and `E ∈ [1.3, 2.5]` the stated
range bounds hold. -/
lemma branch_bounds (x : ℤ) (E : ℚ) (hx : 1 ≤ x) (hE1 : 13/10 ≤ E) (hE2 : E ≤ 5/2) :
    (1 ≤ min ⌈(x : ℚ) * E⌉ 90 ∧ min ⌈(x : ℚ) * E⌉ 90 ≤ 90) ∧
    (13/10 ≤ E ∧ E ≤ 5/2) := by
  have hx' : (1 : ℚ) ≤ (x : ℚ) := by exact_mod_cast hx
  have hpos : (0 : ℚ) < (x : ℚ) * E := by nlinarith
  exact ⟨⟨le_min (Int.ceil_pos.mpr hpos) (by norm_num), min_le_right _ _⟩, hE1, hE2⟩

/-- C1: on the valid domain (interval ≥ 1, ease ∈ [1.3, 2.5],
performance ∈ [0, 1]) the returned interval is in `[1, 90]` and the
returned ease factor is in `[1.3, 2.5]`. -/
theorem calculate_next_review_bounds (i : ℤ) (e p : ℚ)
    (hi : 1 ≤ i) (he1 : 13/10 ≤ e) (he2 : e ≤ 5/2) (hp0 : 0 ≤ p) (hp1 : p ≤ 1) :
    (1 ≤ (calculate_next_review i e p).1 ∧ (calculate_next_review i e p).1 ≤ 90) ∧
    (13/10 ≤ (calculate_next_review i e p).2 ∧ (calculate_next_review i e p).2 ≤ 5/2) := by
  simp only [calculate_next_review]
  split_ifs with h1 h2 h3 h4 h5
  · exact branch_bounds i _ hi (le_min (by linarith) (by norm_num)) (min_le_right _ _)
  · exact branch_bounds i _ hi (le_min (by linarith) (by norm_num)) (min_le_right _ _)
  · exact branch_bounds i _ hi (le_max_right _ _) (max_le (by linarith) (by norm_num))
  · exact absurd h4 (by intro h; linarith)
  · exact absurd h5 (by intro h; linarith)
  · exact branch_bounds 1 _ le_rfl (le_max_right _ _) (max_le (by linarith) (by norm_num))

/-- C1 witness: the bounds at the concrete input (3, 2.0, 0.5). -/
theorem calculate_next_review_bounds_witness :
    (1 ≤ (calculate_next_review 3 2 (1/2)).1 ∧ (calculate_next_review 3 2 (1/2)).1 ≤ 90) ∧
    (13/10 ≤ (calculate_next_review 3 2 (1/2)).2 ∧ (calculate_next_review 3 2 (1/2)).2 ≤ 5/2) :=
  calculate_next_review_bounds 3 2 (1/2) (by norm_num) (by norm_num) (by norm_num)
    (by norm_num) (by norm_num)

/-- C2: in the poor band (performance < 0.6) the ease factor drops by 0.2
(floored at 1.3) and the interval is reset to 1 before the ceiling is
taken, so the result does not depend on the prior interval; concretely
`calculate_next_review 30 2.0 0.4 = (2, 1.8)`. -/
theorem calculate_next_review_poor_resets (i : ℤ) (e p : ℚ)
    (hi : 1 ≤ i) (he1 : 13/10 ≤ e) (he2 : e ≤ 5/2) (hp : p < 6/10) :
    (calculate_next_review i e p).2 = max (e - 2/10) (13/10) ∧
    (calculate_next_review i e p).1 = ⌈(1 : ℚ) * max (e - 2/10) (13/10)⌉ ∧
    calculate_next_review 30 2 (4/10) = (2, 18/10) := by
  refine ⟨?_, ?_, ?_⟩
  · simp only [calculate_next_review]
    split_ifs with h1 h2 h3 <;> first | rfl | linarith
  · simp only [calculate_next_review]
    split_ifs with h1 h2 h3 <;> try linarith
    have hmax : max (e - 2/10) (13/10) ≤ 23/10 := max_le (by linarith) (by norm_num)
    have hle : ⌈(1 : ℚ) * max (e - 2/10) (13/10)⌉ ≤ 90 := by
      refine Int.ceil_le.mpr ?_
      rw [one_mul]
      push_cast
      linarith
    have hcast : ((1 : ℤ) : ℚ) = 1 := by norm_num
    rw [hcast, min_eq_left hle]
  · norm_num [calculate_next_review]
    have h : ⌈(9/5 : ℚ)⌉ = 2 := by
      rw [Int.ceil_eq_iff]
      norm_num
    rw [h]
    norm_num

/-- C2 witness: the poor-band rule applied at the concrete input (30, 2.0, 0.4). -/
theorem calculate_next_review_poor_resets_witness :
    calculate_next_review 30 2 (4/10) = (2, 18/10) :=
  (calculate_next_review_poor_resets 30 2 (4/10) (by norm_num) (by norm_num)
    (by norm_num) (by norm_num)).2.2

/-- C3 counterexample: the claimed unconditional clamp into
`[1.3, 2.5] × [1, 90]` fails at interval 1, ease 0, performance 1: the
result is `(1, 0.15)`, whose ease factor is below 1.3. -/
theorem calculate_next_review_no_unconditional_clamp :
    ¬ ((1 ≤ (calculate_next_review 1 0 1).1 ∧ (calculate_next_review 1 0 1).1 ≤ 90) ∧
       (13/10 ≤ (calculate_next_review 1 0 1).2 ∧ (calculate_next_review 1 0 1).2 ≤ 5/2)) := by
  intro h
  have he := h.2.1
  have hval : (calculate_next_review 1 0 1).2 = 3/20 := by
    norm_num [calculate_next_review]
  rw [hval] at he
  norm_num at he

/-- C3 amended: the clamps that are enforced unconditionally are
one-sided per branch — the interval is always capped at 90; when
performance ≥ 0.7 (ease raised) the result ease is capped at 2.5; when
performance < 0.7 (ease lowered) the result ease is floored at 1.3. -/
theorem calculate_next_review_clamps (i : ℤ) (e p : ℚ) :
    (calculate_next_review i e p).1 ≤ 90 ∧
    (7/10 ≤ p → (calculate_next_review i e p).2 ≤ 5/2) ∧
    (p < 7/10 → 13/10 ≤ (calculate_next_review i e p).2) := by
  simp only [calculate_next_review]
  split_ifs with h1 h2 h3 h4 h5
  · exact ⟨min_le_right _ _, fun hp => min_le_right _ _,
      fun hp => absurd h2 (by intro h; linarith)⟩
  · exact ⟨min_le_right _ _, fun hp => min_le_right _ _,
      fun hp => absurd h3 (by intro h; linarith)⟩
  · exact ⟨min_le_right _ _, fun hp => absurd hp h3, fun hp => le_max_right _ _⟩
  · exact absurd h4 (by intro h; linarith)
  · exact absurd h5 (by intro h; linarith)
  · exact ⟨min_le_right _ _, fun hp => absurd hp (by intro h; linarith),
      fun hp => le_max_right _ _⟩

/-- C3 amended witness: the unconditional clamps at the out-of-range
input (0, 10, 0). -/
theorem calculate_next_review_clamps_witness :
    (calculate_next_review 0 10 0).1 ≤ 90 ∧ 13/10 ≤ (calculate_next_review 0 10 0).2 :=
  ⟨(calculate_next_review_clamps 0 10 0).1,
   (calculate_next_review_clamps 0 10 0).2.2 (by norm_num)⟩

/-- With an effective ease factor of at least 1.3 (> 1), the capped
ceiling `min ⌈i·E⌉ 90` does not fall below `i` on `1 ≤ i ≤ 90`, and
strictly exceeds `i` when `i < 90`. -/
lemma interval_grows (i : ℤ) (E : ℚ) (hi1 : 1 ≤ i) (hi2 : i ≤ 90) (hE : 13/10 ≤ E) :
    i ≤ min ⌈(i : ℚ) * E⌉ 90 ∧ (i < 90 → i < min ⌈(i : ℚ) * E⌉ 90) := by
  have hi' : (1 : ℚ) ≤ (i : ℚ) := by exact_mod_cast hi1
  have hml : ((i : ℤ) : ℚ) < (i : ℚ) * E := by nlinarith
  have hlt : i < ⌈(i : ℚ) * E⌉ := Int.lt_ceil.mpr hml
  exact ⟨le_min hlt.le hi2, fun h90 => lt_min hlt h90⟩

/-- C10: a non-poor review (performance ≥ 0.6) never shortens the
interval, and strictly lengthens it whenever the current interval is
below the 90-day cap. -/
theorem calculate_next_review_non_poor_monotone (i : ℤ) (e p : ℚ)
    (hi1 : 1 ≤ i) (hi2 : i ≤ 90) (he1 : 13/10 ≤ e) (he2 : e ≤ 5/2) (hp : 6/10 ≤ p) :
    i ≤ (calculate_next_review i e p).1 ∧
    (i < 90 → i < (calculate_next_review i e p).1) := by
  simp only [calculate_next_review]
  split_ifs with h1 h2
  · exact interval_grows i _ hi1 hi2 (le_min (by linarith) (by norm_num))
  · exact interval_grows i _ hi1 hi2 (le_min (by linarith) (by norm_num))
  · exact interval_grows i _ hi1 hi2 (le_max_right _ _)

/-- C10 witness: a good review at interval 7 strictly lengthens the
interval. -/
theorem calculate_next_review_non_poor_monotone_witness :
    7 ≤ (calculate_next_review 7 (5/2) (95/100)).1 ∧
    7 < (calculate_next_review 7 (5/2) (95/100)).1 :=
  ⟨(calculate_next_review_non_poor_monotone 7 (5/2) (95/100) (by norm_num) (by norm_num)
      (by norm_num) (by norm_num) (by norm_num)).1,
   (calculate_next_review_non_poor_monotone 7 (5/2) (95/100) (by norm_num) (by norm_num)
      (by norm_num) (by norm_num) (by norm_num)).2 (by norm_num)⟩

/-! ### Stable sort lemmas -/

lemma mem_insertDescBy {α : Type} (key : α → ℤ) (x a : α) (l : List α) :
    a ∈ insertDescBy key x l ↔ a = x ∨ a ∈ l := by
  induction l with
  | nil => simp [insertDescBy]
  | cons y ys ih =>
    simp only [insertDescBy]
    split_ifs with h
    · simp only [List.mem_cons, ih]
      tauto
    · simp [List.mem_cons]

lemma pairwise_insertDescBy {α : Type} (key : α → ℤ) (x : α) (l : List α)
    (hl : l.Pairwise (fun a b => key b ≤ key a)) :
    (insertDescBy key x l).Pairwise (fun a b => key b ≤ key a) := by
  induction l with
  | nil => simp [insertDescBy]
  | cons y ys ih =>
    rw [List.pairwise_cons] at hl
    simp only [insertDescBy]
    split_ifs with h
    · rw [List.pairwise_cons]
      refine ⟨fun z hz => ?_, ih hl.2⟩
      rcases (mem_insertDescBy key x z ys).1 hz with rfl | hzy
      · exact le_of_lt h
      · exact hl.1 z hzy
    · rw [List.pairwise_cons]
      refine ⟨fun z hz => ?_, List.pairwise_cons.2 hl⟩
      rcases List.mem_cons.1 hz with rfl | hzy
      · exact not_lt.1 h
      · exact le_trans (hl.1 z hzy) (not_lt.1 h)

lemma sortDescBy_pairwise {α : Type} (key : α → ℤ) (l : List α) :
    (sortDescBy key l).Pairwise (fun a b => key b ≤ key a) := by
  induction l with
  | nil => simp [sortDescBy]
  | cons x xs ih => exact pairwise_insertDescBy key x _ ih

lemma mem_sortDescBy {α : Type} (key : α → ℤ) (a : α) (l : List α) :
    a ∈ sortDescBy key l ↔ a ∈ l := by
  induction l with
  | nil => simp [sortDescBy]
  | cons x xs ih => simp [sortDescBy, mem_insertDescBy, ih]

/-- Stability of the insertion step: restricted to any fixed key value,
inserting preserves the element order of the cons.  (All elements the
inserted element passes have strictly larger keys.) -/
lemma filter_insertDescBy {α : Type} (key : α → ℤ) (s : ℤ) (x : α) (l : List α) :
    (insertDescBy key x l).filter (fun a => decide (key a = s)) =
    ((x :: l).filter (fun a => decide (key a = s))) := by
  induction l with
  | nil => rfl
  | cons y ys ih =>
    simp only [insertDescBy]
    split_ifs with h
    · by_cases hx : key x = s
      · by_cases hy : key y = s
        · exact absurd (hy.trans hx.symm) (ne_of_gt h)
        · simp only [List.filter_cons] at ih ⊢
          simp [ih, hx, hy]
      · by_cases hy : key y = s
        · simp only [List.filter_cons] at ih ⊢
          simp [ih, hx, hy]
        · simp only [List.filter_cons] at ih ⊢
          simp [ih, hx, hy]
    · rfl

/-- Stability of the sort: the sublist of elements at any fixed key value
is exactly the input's sublist at that key value. -/
lemma filter_sortDescBy {α : Type} (key : α → ℤ) (s : ℤ) (l : List α) :
    (sortDescBy key l).filter (fun a => decide (key a = s)) =
    l.filter (fun a => decide (key a = s)) := by
  induction l with
  | nil => rfl
  | cons x xs ih =>
    rw [sortDescBy, filter_insertDescBy, List.filter_cons, List.filter_cons, ih]

/-! ### C5: topic prioritization -/

/-- C5: `_prioritize_topics` returns the scored topics sorted by impact
score descending, every output topic's score is
`frequency_weight × 2 × 1`, the sort is stable (topics with a common
impact score keep their input order), the weight table is
`very_high=10, high=7, medium=5, low=3` with unknown tiers defaulting
to 5, and on the concrete high/low pair the high topic (score 14)
precedes the low topic (score 6). -/
theorem prioritize_topics_spec :
    (∀ topics : List (String × TopicData),
      (prioritize_topics topics).Pairwise
          (fun a b => b.impact_score ≤ a.impact_score) ∧
        (∀ t ∈ prioritize_topics topics,
          t.impact_score = frequency_weights t.frequency * 2 * 1) ∧
        (∀ s : ℤ,
          (prioritize_topics topics).filter (fun t => decide (t.impact_score = s)) =
          (topics.map (fun nt => mkPrioritizedTopic nt.1 nt.2)).filter
            (fun t => decide (t.impact_score = s)))) ∧
    (∀ f : String, f ≠ "very_high" → f ≠ "high" → f ≠ "medium" → f ≠ "low" →
      frequency_weights f = 5) ∧
    (frequency_weights "very_high" = 10 ∧ frequency_weights "high" = 7 ∧
      frequency_weights "medium" = 5 ∧ frequency_weights "low" = 3) ∧
    (prioritize_topics
        [("A", ⟨some "high", [], none⟩), ("B", ⟨some "low", [], none⟩)]).map
      (fun t => (t.name, t.impact_score)) = [("A", 14), ("B", 6)] := by
  refine ⟨fun topics => ⟨sortDescBy_pairwise _ _, ?_, ?_⟩, ?_, ⟨rfl, rfl, rfl, rfl⟩, rfl⟩
  · intro t ht
    rw [prioritize_topics, mem_sortDescBy] at ht
    obtain ⟨nt, hnt, rfl⟩ := List.mem_map.1 ht
    rfl
  · intro s
    exact filter_sortDescBy _ s _
  · intro f h1 h2 h3 h4
    simp only [frequency_weights]
    rw [if_neg h1, if_neg h2, if_neg h3, if_neg h4]

/-- C5 witness: the unknown-tier default at a concrete unknown tier. -/
theorem prioritize_topics_spec_witness : frequency_weights "weekly" = 5 :=
  prioritize_topics_spec.2.1 "weekly" (by decide) (by decide) (by decide) (by decide)

/-! ### C6: update_schedule -/

lemma mem_updateFirst {p : Schedule → Bool} {new : Schedule} {l : List Schedule}
    (hx : ∃ x ∈ l, p x = true) : new ∈ updateFirst p new l := by
  induction l with
  | nil =>
    obtain ⟨x, hx', _⟩ := hx
    cases hx'
  | cons a l ih =>
    simp only [updateFirst]
    split_ifs with h
    · exact List.mem_cons_self _ _
    · obtain ⟨x, hx', hpx⟩ := hx
      rcases List.mem_cons.1 hx' with rfl | hmem
      · exact absurd hpx (by simp [h])
      · exact List.mem_cons_of_mem _ (ih ⟨x, hmem, hpx⟩)

/-- C6: after any `update_schedule` call the returned record has
`last_reviewed = today`, satisfies
`next_review_date = last_reviewed + interval_days`, is persisted in the
returned store, and its review count is one above the prior count — with
the schedule lazily created from interval 1, ease 2.5, count 0 when no
record existed. -/
theorem update_schedule_invariant (db : List Schedule) (u t : ℤ) (p : ℚ)
    (today : ℤ) (db2 : List Schedule) (s : Schedule)
    (h : update_schedule db u t p today = (db2, s)) :
    s.last_reviewed = some today ∧
    s.next_review_date = today + s.interval_days ∧
    s ∈ db2 ∧
    (findSchedule db u t = none →
      s.review_count = 1 ∧
      (s.interval_days, s.ease_factor) = calculate_next_review 1 (5/2) p) ∧
    (∀ old, findSchedule db u t = some old →
      s.review_count = old.review_count + 1 ∧
      (s.interval_days, s.ease_factor) =
        calculate_next_review old.interval_days old.ease_factor p) := by
  rcases hfind : findSchedule db u t with _ | old
  · simp only [update_schedule, hfind] at h
    rw [Prod.mk.injEq] at h
    obtain ⟨h1, h2⟩ := h
    subst h1
    subst h2
    refine ⟨rfl, rfl, List.mem_append.2 (Or.inr (List.mem_singleton.2 rfl)),
      fun _ => ⟨rfl, rfl⟩, fun old hold => ?_⟩
    simp at hold
  · simp only [update_schedule, hfind] at h
    rw [Prod.mk.injEq] at h
    obtain ⟨h1, h2⟩ := h
    subst h1
    subst h2
    have hfind' : db.find? (fun s => decide (s.user_id = u ∧ s.topic_id = t)) =
        some old := hfind
    have hmem : old ∈ db := List.mem_of_find?_eq_some hfind'
    have hp := List.find?_some hfind'
    refine ⟨rfl, rfl, mem_updateFirst ⟨old, hmem, hp⟩,
      fun hnone => ?_, fun old2 hold2 => ?_⟩
    · simp at hnone
    · obtain rfl : old = old2 := by injection hold2
      exact ⟨rfl, rfl⟩

/-- C6 witness: updating an empty store creates and returns a schedule
reviewed today. -/
theorem update_schedule_invariant_witness :
    (update_schedule [] 1 1 1 0).2.last_reviewed = some 0 ∧
    (update_schedule [] 1 1 1 0).2.next_review_date =
      0 + (update_schedule [] 1 1 1 0).2.interval_days :=
  ⟨(update_schedule_invariant [] 1 1 1 0 (update_schedule [] 1 1 1 0).1
      (update_schedule [] 1 1 1 0).2 rfl).1,
   (update_schedule_invariant [] 1 1 1 0 (update_schedule [] 1 1 1 0).1
      (update_schedule [] 1 1 1 0).2 rfl).2.1⟩

/-! ### C7, C8: due and upcoming review queries -/

/-- Rows produced by the filter-join used in both queries come from a
stored schedule satisfying the filter condition. -/
lemma mem_of_joinRow {db : List Schedule} {topics : List Topic} {plan : Option ℤ}
    {P : Schedule → Prop} [DecidablePred P] {st : Schedule × Topic}
    (h : st ∈ db.filterMap (fun s =>
      if P s then
        (topics.find? (fun t => decide (t.id = s.topic_id))).bind (fun t =>
          if planFilter plan t then some (s, t) else none)
      else none)) :
    st.1 ∈ db ∧ P st.1 := by
  obtain ⟨s, hs, hf⟩ := List.mem_filterMap.1 h
  by_cases hc : P s
  · rw [if_pos hc] at hf
    rcases hft : topics.find? (fun t => decide (t.id = s.topic_id)) with _ | tp
    · rw [hft] at hf
      simp at hf
    · rw [hft, Option.some_bind'] at hf
      by_cases hpf : planFilter plan tp
      · rw [if_pos hpf] at hf
        obtain rfl : (s, tp) = st := by injection hf
        exact ⟨hs, hc⟩
      · rw [if_neg hpf] at hf
        simp at hf
  · rw [if_neg hc] at hf
    simp at hf

/-- C7: every entry returned by `get_due_reviews` is due (never a future
`next_review_date`), and the result is ordered by `days_overdue`
descending. -/
theorem get_due_reviews_spec (db : List Schedule) (topics : List Topic) (u : ℤ)
    (plan : Option ℤ) (today : ℤ) :
    (∀ e ∈ get_due_reviews db topics u plan today, e.next_review_date ≤ today) ∧
    (get_due_reviews db topics u plan today).Pairwise
      (fun a b => b.days_overdue ≤ a.days_overdue) := by
  constructor
  · intro e he
    simp only [get_due_reviews] at he
    rw [mem_sortDescBy] at he
    obtain ⟨st, hst, rfl⟩ := List.mem_map.1 he
    exact (mem_of_joinRow
      (P := fun s => s.user_id = u ∧ s.next_review_date ≤ today) hst).2.2
  · exact sortDescBy_pairwise _ _

/-- C7 witness: the ordering property at a concrete store. -/
theorem get_due_reviews_spec_witness :
    (get_due_reviews [] [] 0 none 0).Pairwise
      (fun a b => b.days_overdue ≤ a.days_overdue) :=
  (get_due_reviews_spec [] [] 0 none 0).2

lemma placeRow_fst (acc : List (ℤ × List UpcomingEntry)) (st : Schedule × Topic) :
    (placeRow acc st).map Prod.fst = acc.map Prod.fst := by
  induction acc with
  | nil => rfl
  | cons b bs ih =>
    simp only [placeRow, List.map_cons] at ih ⊢
    rw [ih]
    congr 1
    split <;> rfl

lemma foldl_placeRow_fst (rows : List (Schedule × Topic)) :
    ∀ acc : List (ℤ × List UpcomingEntry),
      ((rows.foldl placeRow acc).map Prod.fst) = acc.map Prod.fst := by
  induction rows with
  | nil => intro acc; rfl
  | cons r rs ih =>
    intro acc
    rw [List.foldl_cons, ih, placeRow_fst]

/-- Every entry of every bucket after folding `placeRow` stems from a
stored schedule due exactly on the bucket's date. -/
lemma foldl_placeRow_inv (db : List Schedule) (rows : List (Schedule × Topic)) :
    ∀ acc : List (ℤ × List UpcomingEntry),
      (∀ st ∈ rows, st.1 ∈ db) →
      (∀ b ∈ acc, ∀ e ∈ b.2, ∃ s ∈ db, s.next_review_date = b.1 ∧
        e.topic_id = s.topic_id ∧ e.review_count = s.review_count) →
      ∀ b ∈ rows.foldl placeRow acc, ∀ e ∈ b.2, ∃ s ∈ db,
        s.next_review_date = b.1 ∧ e.topic_id = s.topic_id ∧
        e.review_count = s.review_count := by
  induction rows with
  | nil =>
    intro acc _ hacc
    exact hacc
  | cons r rs ih =>
    intro acc hrows hacc
    rw [List.foldl_cons]
    refine ih _ (fun st hst => hrows st (List.mem_cons_of_mem _ hst)) ?_
    intro b hb e he
    simp only [placeRow] at hb
    obtain ⟨b0, hb0, rfl⟩ := List.mem_map.1 hb
    by_cases hc : b0.1 = r.1.next_review_date
    · rw [if_pos hc] at he ⊢
      rcases List.mem_append.1 he with he0 | he1
      · exact hacc b0 hb0 e he0
      · obtain rfl := List.mem_singleton.1 he1
        exact ⟨r.1, hrows r (List.mem_cons_self _ _), hc.symm, rfl, rfl⟩
    · rw [if_neg hc] at he ⊢
      exact hacc b0 hb0 e he

/-- C8: `get_upcoming_reviews` returns one bucket per day from `today`
through `today + days_ahead` inclusive (hence exactly `days_ahead + 1`
buckets, present even when empty), and every entry in a bucket stems from
a stored schedule whose `next_review_date` is that bucket's date. -/
theorem get_upcoming_reviews_spec (db : List Schedule) (topics : List Topic)
    (u : ℤ) (days_ahead : ℕ) (plan : Option ℤ) (today : ℤ)
    (hd : 1 ≤ days_ahead) :
    (get_upcoming_reviews db topics u days_ahead plan today).map Prod.fst =
      (List.range (days_ahead + 1)).map (fun i : ℕ => today + (i : ℤ)) ∧
    (get_upcoming_reviews db topics u days_ahead plan today).length =
      days_ahead + 1 ∧
    ∀ b ∈ get_upcoming_reviews db topics u days_ahead plan today, ∀ e ∈ b.2,
      ∃ s ∈ db, s.next_review_date = b.1 ∧ e.topic_id = s.topic_id ∧
        e.review_count = s.review_count := by
  have hkeys : (get_upcoming_reviews db topics u days_ahead plan today).map Prod.fst =
      (List.range (days_ahead + 1)).map (fun i : ℕ => today + (i : ℤ)) := by
    simp only [get_upcoming_reviews]
    rw [foldl_placeRow_fst, List.map_map]
    rfl
  refine ⟨hkeys, ?_, ?_⟩
  · have hlen := congrArg List.length hkeys
    rw [List.length_map, List.length_map, List.length_range] at hlen
    exact hlen
  · simp only [get_upcoming_reviews]
    refine foldl_placeRow_inv db _ _ (fun st hst => (mem_of_joinRow
      (P := fun s => s.user_id = u ∧ today ≤ s.next_review_date ∧
        s.next_review_date ≤ today + days_ahead) hst).1) ?_
    intro b hb e he
    obtain ⟨i, _, rfl⟩ := List.mem_map.1 hb
    simp at he

/-- C8 witness: two days ahead of day 0 with an empty store gives the
three expected bucket keys. -/
theorem get_upcoming_reviews_spec_witness :
    (get_upcoming_reviews [] [] 0 2 none 0).map Prod.fst =
      (List.range (2 + 1)).map (fun i : ℕ => (0 : ℤ) + (i : ℤ)) :=
  (get_upcoming_reviews_spec [] [] 0 2 none 0 (by norm_num)).1

/-! ### C4: day distribution -/

lemma getD_mem {α : Type} {l : List α} {i : ℕ} (d : α) (h : i < l.length) :
    l.getD i d ∈ l := by
  rw [List.getD_eq_get _ _ h]
  exact List.get_mem _ _ _

/-- One loop iteration under the cursor invariant (offset zero past the
end; otherwise a strict offset into the current topic's questions), for
nonempty topics with nonempty question lists and a positive daily budget:
the iteration succeeds, the produced day is nonempty and the invariant is
preserved. -/
lemma distributeStep_spec (topics : List PrioritizedTopic) (daily : ℕ) (today : ℤ)
    (day idx done : ℕ) (htop : topics ≠ [])
    (hq : ∀ t ∈ topics, t.questions ≠ []) (hd : 1 ≤ daily)
    (hinv1 : topics.length ≤ idx → done = 0)
    (hinv2 : idx < topics.length →
      done < (topics.getD idx dummyTopic).questions.length) :
    ∃ s, distributeStep topics daily today day idx done = Except.ok s ∧
      s.1.dsa_questions ≠ [] ∧
      (topics.length ≤ s.2.1 → s.2.2 = 0) ∧
      (s.2.1 < topics.length →
        s.2.2 < (topics.getD s.2.1 dummyTopic).questions.length) := by
  have hlenpos : 0 < topics.length := List.length_pos.2 htop
  set idx1 := if topics.length ≤ idx then 0 else idx with hidx1
  have h1 : idx1 < topics.length := by
    rw [hidx1]
    split_ifs with h
    · exact hlenpos
    · exact not_le.1 h
  have hdone : done < (topics.getD idx1 dummyTopic).questions.length := by
    rw [hidx1]
    split_ifs with h
    · have h0 := hinv1 h
      subst h0
      exact List.length_pos.2 (hq _ (getD_mem dummyTopic hlenpos))
    · exact hinv2 (not_le.1 h)
  set current := topics.getD idx1 dummyTopic with hcur
  set qs := (current.questions.drop done).take daily with hqs
  have hqs_ne : qs ≠ [] := by
    rw [hqs]
    intro hcontra
    rcases List.take_eq_nil_iff.1 hcontra with h0 | h0
    · omega
    · have := List.drop_eq_nil_iff_le.1 h0
      omega
  have hqs_empty : qs.isEmpty = false := by
    rcases hqsE : qs.isEmpty with _ | _
    · rfl
    · exact absurd (List.isEmpty_iff.1 hqsE) hqs_ne
  have hqs_len : done + qs.length ≤ current.questions.length := by
    rw [hqs, List.length_take, List.length_drop]
    omega
  have hget : topics.get? idx1 = some current := by
    rw [hcur, List.getD_eq_get _ _ h1]
    exact List.get?_eq_get h1
  have hstep : distributeStep topics daily today day idx done =
      Except.ok (finishDay day today idx1 done current qs) := by
    simp only [distributeStep, ← hidx1, hget, ← hqs, hqs_empty]
    simp
  refine ⟨finishDay day today idx1 done current qs, hstep, ?_⟩
  simp only [finishDay]
  split_ifs with hfin
  · refine ⟨hqs_ne, fun _ => rfl, fun h => ?_⟩
    dsimp only at h ⊢
    exact List.length_pos.2 (hq _ (getD_mem dummyTopic h))
  · refine ⟨hqs_ne, fun h => ?_, fun h => ?_⟩
    · dsimp only at h
      omega
    · dsimp only at h ⊢
      rw [← hcur]
      omega

/-- Any failure of a loop iteration is the `IndexError` of the unguarded
`topics[current_topic_idx]` access. -/
lemma distributeStep_error (topics : List PrioritizedTopic) (daily : ℕ)
    (today : ℤ) (day idx done : ℕ) (e : PyError)
    (h : distributeStep topics daily today day idx done = Except.error e) :
    e = PyError.indexError := by
  simp only [distributeStep] at h
  rcases hget : topics.get? (if topics.length ≤ idx then 0 else idx) with _ | current
  · rw [hget] at h
    simp only at h
    injection h with h1
    exact h1.symm
  · rw [hget] at h
    simp only at h
    split_ifs at h <;> exact Except.noConfusion h

lemma distributeGo_error (topics : List PrioritizedTopic) (daily : ℕ)
    (today : ℤ) :
    ∀ rem day idx done e,
      distributeGo topics daily today rem day idx done = Except.error e →
      e = PyError.indexError := by
  intro rem
  induction rem with
  | zero =>
    intro day idx done e h
    exact Except.noConfusion h
  | succ n ih =>
    intro day idx done e h
    simp only [distributeGo] at h
    rcases hstep : distributeStep topics daily today day idx done with es | s
    · rw [hstep] at h
      simp only at h
      injection h with h1
      exact h1 ▸ distributeStep_error topics daily today day idx done es hstep
    · rw [hstep] at h
      simp only at h
      rcases hrec : distributeGo topics daily today n (day + 1) s.2.1 s.2.2 with er | rest
      · rw [hrec] at h
        simp only at h
        injection h with h1
        exact h1 ▸ ih (day + 1) s.2.1 s.2.2 er hrec
      · rw [hrec] at h
        simp only at h
        exact Except.noConfusion h

/-- Under the cursor invariant the whole loop succeeds, produces one
entry per remaining day, and every entry is nonempty. -/
lemma distributeGo_ok (topics : List PrioritizedTopic) (daily : ℕ)
    (today : ℤ) (htop : topics ≠ []) (hq : ∀ t ∈ topics, t.questions ≠ [])
    (hd : 1 ≤ daily) :
    ∀ rem day idx done,
      (topics.length ≤ idx → done = 0) →
      (idx < topics.length →
        done < (topics.getD idx dummyTopic).questions.length) →
      ∃ plan, distributeGo topics daily today rem day idx done = Except.ok plan ∧
        plan.length = rem ∧ ∀ d ∈ plan, d.dsa_questions ≠ [] := by
  intro rem
  induction rem with
  | zero =>
    intro day idx done _ _
    exact ⟨[], rfl, rfl, by simp⟩
  | succ n ih =>
    intro day idx done hinv1 hinv2
    obtain ⟨s, hstep, hne, hinv1', hinv2'⟩ :=
      distributeStep_spec topics daily today day idx done htop hq hd hinv1 hinv2
    obtain ⟨rest, hrest, hlen, hall⟩ := ih (day + 1) s.2.1 s.2.2 hinv1' hinv2'
    refine ⟨s.1 :: rest, ?_, by simp [hlen], ?_⟩
    · simp only [distributeGo, hstep, hrest]
    · intro d hmem
      rcases List.mem_cons.1 hmem with rfl | hmem'
      · exact hne
      · exact hall d hmem'

/-- C4 counterexample: with one prioritized topic whose question list is
empty (allowed by the claim's hypotheses), `daysAvailable = 1` and
`dailyItemCount = 1`, the generated single day has an empty item list. -/
theorem distribute_topics_empty_day_cex :
    ¬ (∃ plan, distribute_topics [⟨"A", [], "high", 5, 14, 0⟩] 1 1 [] 0 =
        Except.ok plan ∧ plan.length = 1 ∧ ∀ d ∈ plan, d.dsa_questions ≠ []) := by
  rintro ⟨plan, hok, hlen, hne⟩
  have hev : (distribute_topics [⟨"A", [], "high", 5, 14, 0⟩] 1 1 [] 0).map
      (fun l => l.map (fun d => d.dsa_questions)) = Except.ok [[]] := rfl
  rw [hok] at hev
  simp only [Except.map] at hev
  injection hev with h1
  rcases hp : plan with _ | ⟨a, tl⟩
  · rw [hp] at h1
    simp at h1
  · rw [hp] at h1
    simp only [List.map_cons] at h1
    injection h1 with h2 h3
    refine hne a ?_ h2
    rw [hp]
    exact List.mem_cons_self _ _

/-- C4 amended: when additionally every prioritized topic carries at
least one item, `_distribute_topics` succeeds with exactly
`daysAvailable` day entries (cycling back to the first topic once all
are exhausted) and no returned day has an empty item list. -/
theorem distribute_topics_exact_days (topics : List PrioritizedTopic)
    (days daily : ℕ) (rounds : List RoundSpec) (today : ℤ)
    (h1 : topics ≠ []) (h2 : 1 ≤ days) (h3 : 1 ≤ daily)
    (h4 : ∀ t ∈ topics, t.questions ≠ []) :
    ∃ plan, distribute_topics topics days daily rounds today = Except.ok plan ∧
      plan.length = days ∧ ∀ d ∈ plan, d.dsa_questions ≠ [] := by
  refine distributeGo_ok topics daily today h1 h4 h3 days 1 0 0
    (fun _ => rfl) (fun h => ?_)
  exact List.length_pos.2 (h4 _ (getD_mem dummyTopic h))

/-- C4 amended witness: one topic with one question, two days, one item
per day. -/
theorem distribute_topics_exact_days_witness :
    (distribute_topics [⟨"A", ["q1"], "high", 5, 14, 1⟩] 2 1 [] 0).map
      List.length = Except.ok 2 := by
  obtain ⟨plan, hok, hlen, _⟩ :=
    distribute_topics_exact_days [⟨"A", ["q1"], "high", 5, 14, 1⟩] 2 1 [] 0
      (by simp) (by norm_num) (by norm_num) (by simp)
  rw [hok]
  simp [Except.map, hlen]

/-! ### C9: roadmap validation -/

/-- C9: `generate_roadmap` fails with the invalid-schedule `ValueError`
exactly when `daysAvailable = interviewDate - today ≤ 0`; for
`daysAvailable ≥ 1` that validation error is never raised (any failure on
such inputs is the distribution's `IndexError`, a different error). -/
theorem generate_roadmap_error_iff (cq : CompanyQuestions) (interview : ℤ)
    (hours : ℚ) (rounds : List RoundSpec) (today : ℤ) :
    (interview - today ≤ 0 →
      generate_roadmap cq interview hours rounds today =
        Except.error (PyError.valueError "Interview date must be in the future")) ∧
    (1 ≤ interview - today → ∀ msg : String,
      generate_roadmap cq interview hours rounds today ≠
        Except.error (PyError.valueError msg)) := by
  constructor
  · intro h
    simp only [generate_roadmap, if_pos h]
  · intro h msg hcontra
    simp only [generate_roadmap] at hcontra
    rw [if_neg (show ¬(interview - today ≤ 0) by omega)] at hcontra
    split at hcontra
    · rename_i e heq
      injection hcontra with h1
      have h2 := distributeGo_error (prioritize_topics cq.topics) _ today
        (interview - today).toNat 1 0 0 e heq
      rw [h1] at h2
      exact PyError.noConfusion h2
    · exact Except.noConfusion hcontra

/-- C9 witness: a same-day target raises the validation error; a next-day
target does not raise it (with an empty topic list it instead fails with
the distribution's `IndexError`). -/
theorem generate_roadmap_error_iff_witness :
    generate_roadmap ⟨[], none, none⟩ 0 0 [] 0 =
      Except.error (PyError.valueError "Interview date must be in the future") ∧
    generate_roadmap ⟨[], none, none⟩ 1 0 [] 0 ≠
      Except.error (PyError.valueError "Interview date must be in the future") :=
  ⟨(generate_roadmap_error_iff ⟨[], none, none⟩ 0 0 [] 0).1 (by norm_num),
   (generate_roadmap_error_iff ⟨[], none, none⟩ 1 0 [] 0).2 (by norm_num)
     "Interview date must be in the future"⟩

end StudyBuddy
